import Mathlib

/-!
Shallow embedding of the heart-rate slope/excitement detector
(`src/stim/heart.py`, `src/pyeep/heart/improvised.py` — the two files share
identical `Slope`/`Slopes`/`Window` classes) and of the gyroscope gesture
detection (`src/stim/muse2.py`).

Conventions of the embedding:
* Python floats are modelled as exact rationals (`Rat`); sample timestamps
  are `Int` nanoseconds as in the source.
* Mutating methods become state-passing functions returning the new object
  (plus the method's return value where the source returns one).
* Presentation-only state (status glyph strings, logging) is omitted.
-/

namespace Pyeep

/-- `HeartSample` from `src/stim/heart.py`: UNIX timestamp in nanoseconds,
heart rate, and the (unused by the analysis) RR intervals. -/
structure HeartSample where
  time : Int
  rate : Rat
  rr : List Rat := []
deriving DecidableEq

instance : Inhabited HeartSample := ⟨⟨0, 0, []⟩⟩

/-- `min(s.rate for s in samples)`; 0 on the empty list, which the source
never passes (Python `min` would raise there). -/
def ratesMin : List HeartSample → Rat
  | [] => 0
  | x :: xs => xs.foldl (fun m s => min m s.rate) x.rate

/-- `max(s.rate for s in samples)`; 0 on the empty list. -/
def ratesMax : List HeartSample → Rat
  | [] => 0
  | x :: xs => xs.foldl (fun m s => max m s.rate) x.rate

/-- Timestamp of `samples[-1]` (default sample on the empty list, which the
source never reaches: `Slope.samples` is nonempty by construction). -/
def lastTime (l : List HeartSample) : Int :=
  (l.getLastD default).time

/-- Timestamp of `samples[0]`. -/
def firstTime (l : List HeartSample) : Int :=
  (l.headD default).time

/-- `Slope` from `src/stim/heart.py` lines 20-53: a contiguous run of samples
with incrementally tracked extrema. -/
structure Slope where
  samples : List HeartSample
  min_slope : Rat
  max_slope : Rat
  last_slope : Rat
  min_rate : Rat
  max_rate : Rat
deriving DecidableEq

/-- `Slope.__init__(samples, slope)`. -/
def Slope.init (samples : List HeartSample) (slope : Rat) : Slope where
  samples := samples
  min_slope := slope
  max_slope := slope
  last_slope := slope
  min_rate := ratesMin samples
  max_rate := ratesMax samples

/-- `Slope.duration`: `(samples[-1].time - samples[0].time) / 1_000_000_000`. -/
def Slope.duration (s : Slope) : Rat :=
  ((lastTime s.samples - firstTime s.samples : Int) : Rat) / 1000000000

/-- `Slope.height`: `max_rate - min_rate`. -/
def Slope.height (s : Slope) : Rat :=
  s.max_rate - s.min_rate

/-- `Slope.mid_rate`: `(min_rate + max_rate) / 2.0`. -/
def Slope.mid_rate (s : Slope) : Rat :=
  (s.min_rate + s.max_rate) / 2

/-- `Slope.extend(samples, slope)` from `src/stim/heart.py` lines 41-53:
filter the input to the samples strictly newer than the current last one,
append them, and update the extrema incrementally. -/
def Slope.extend (sl : Slope) (samples : List HeartSample) (slope : Rat) : Slope :=
  let new_samples := samples.filter (fun s => decide (lastTime sl.samples < s.time))
  { samples := sl.samples ++ new_samples
    min_rate := new_samples.foldl (fun m s => if s.rate < m then s.rate else m) sl.min_rate
    max_rate := new_samples.foldl (fun m s => if m < s.rate then s.rate else m) sl.max_rate
    min_slope := if slope < sl.min_slope then slope else sl.min_slope
    max_slope := if sl.max_slope < slope then slope else sl.max_slope
    last_slope := slope }

/-- The sample list is strictly increasing in time. -/
def StrictTimeOrdered (l : List HeartSample) : Prop :=
  l.Pairwise (fun a b => a.time < b.time)

instance : DecidablePred StrictTimeOrdered := fun l =>
  inferInstanceAs (Decidable (l.Pairwise _))

/-- The invariant of claim C1: the retained samples are nonempty and strictly
time-ordered, and the rate extrema equal the true min/max over them. -/
def SlopeGood (sl : Slope) : Prop :=
  sl.samples ≠ [] ∧ StrictTimeOrdered sl.samples ∧
    sl.min_rate = ratesMin sl.samples ∧ sl.max_rate = ratesMax sl.samples

instance : DecidablePred SlopeGood := fun sl =>
  inferInstanceAs (Decidable (sl.samples ≠ [] ∧ StrictTimeOrdered sl.samples ∧
    sl.min_rate = ratesMin sl.samples ∧ sl.max_rate = ratesMax sl.samples))

/-- Run a sequence of `extend` calls (each a pair of the sample list and the
slope argument) on a `Slope`. -/
def applyExtends (sl : Slope) (calls : List (List HeartSample × Rat)) : Slope :=
  calls.foldl (fun a c => a.extend c.1 c.2) sl

theorem getLastD_mem {α : Type _} : ∀ (l : List α) (d : α), l ≠ [] → l.getLastD d ∈ l
  | [], _, h => absurd rfl h
  | [x], d, _ => by simp [List.getLastD]
  | x :: y :: ys, d, _ => by
    rw [List.getLastD_cons]
    exact List.mem_cons_of_mem x (getLastD_mem (y :: ys) x (by simp))

theorem lastTime_cons_cons (x y : HeartSample) (ys : List HeartSample) :
    lastTime (x :: y :: ys) = lastTime (y :: ys) := by
  simp [lastTime, List.getLastD_cons]

theorem time_le_lastTime {l : List HeartSample} (hord : StrictTimeOrdered l)
    {a : HeartSample} (ha : a ∈ l) : a.time ≤ lastTime l := by
  induction l with
  | nil => cases ha
  | cons x xs ih =>
    rcases List.mem_cons.mp ha with rfl | hmem
    · cases xs with
      | nil => simp [lastTime, List.getLastD]
      | cons y ys =>
        rw [lastTime_cons_cons]
        have hlast : (y :: ys).getLastD default ∈ y :: ys :=
          getLastD_mem _ _ (by simp)
        have := (List.pairwise_cons.mp hord).1 _ hlast
        exact le_of_lt this
    · cases xs with
      | nil => cases hmem
      | cons y ys =>
        rw [lastTime_cons_cons]
        exact ih (List.pairwise_cons.mp hord).2 hmem

theorem foldl_if_min (xs : List HeartSample) (a : Rat) :
    xs.foldl (fun m s => if s.rate < m then s.rate else m) a
      = xs.foldl (fun m s => min m s.rate) a := by
  induction xs generalizing a with
  | nil => rfl
  | cons x xs ih =>
    simp only [List.foldl_cons]
    rw [ih]
    congr 1
    rcases lt_or_le x.rate a with h | h
    · rw [if_pos h, min_eq_right (le_of_lt h)]
    · rw [if_neg (not_lt.mpr h), min_eq_left h]

theorem foldl_if_max (xs : List HeartSample) (a : Rat) :
    xs.foldl (fun m s => if m < s.rate then s.rate else m) a
      = xs.foldl (fun m s => max m s.rate) a := by
  induction xs generalizing a with
  | nil => rfl
  | cons x xs ih =>
    simp only [List.foldl_cons]
    rw [ih]
    congr 1
    rcases lt_or_le a x.rate with h | h
    · rw [if_pos h, max_eq_right (le_of_lt h)]
    · rw [if_neg (not_lt.mpr h), max_eq_left h]

theorem ratesMin_append (l xs : List HeartSample) (h : l ≠ []) :
    ratesMin (l ++ xs) = xs.foldl (fun m s => min m s.rate) (ratesMin l) := by
  cases l with
  | nil => exact absurd rfl h
  | cons y ys => simp [ratesMin, List.foldl_append]

theorem ratesMax_append (l xs : List HeartSample) (h : l ≠ []) :
    ratesMax (l ++ xs) = xs.foldl (fun m s => max m s.rate) (ratesMax l) := by
  cases l with
  | nil => exact absurd rfl h
  | cons y ys => simp [ratesMax, List.foldl_append]

theorem SlopeGood.extend {sl : Slope} (h : SlopeGood sl)
    (c : List HeartSample) (m : Rat) (hc : StrictTimeOrdered c) :
    SlopeGood (sl.extend c m) := by
  obtain ⟨hne, hord, hmin, hmax⟩ := h
  have hfilter : StrictTimeOrdered
      (c.filter (fun s => decide (lastTime sl.samples < s.time))) :=
    List.Pairwise.filter _ hc
  refine ⟨?_, ?_, ?_, ?_⟩
  · simp only [Slope.extend]
    intro habs
    exact hne (List.append_eq_nil.mp habs).1
  · simp only [Slope.extend, StrictTimeOrdered]
    rw [List.pairwise_append]
    refine ⟨hord, hfilter, ?_⟩
    intro a ha b hb
    have hbt : lastTime sl.samples < b.time := by
      have := List.of_mem_filter hb
      exact of_decide_eq_true this
    exact lt_of_le_of_lt (time_le_lastTime hord ha) hbt
  · simp only [Slope.extend]
    rw [foldl_if_min, hmin, ← ratesMin_append _ _ hne]
  · simp only [Slope.extend]
    rw [foldl_if_max, hmax, ← ratesMax_append _ _ hne]

theorem applyExtends_take_good
    (calls : List (List HeartSample × Rat)) (sl : Slope)
    (hsl : SlopeGood sl) (hcalls : ∀ c ∈ calls, StrictTimeOrdered c.1) :
    ∀ n, SlopeGood (applyExtends sl (calls.take n)) := by
  induction calls generalizing sl with
  | nil => intro n; simpa [applyExtends] using hsl
  | cons c cs ih =>
    intro n
    cases n with
    | zero => simpa [applyExtends] using hsl
    | succ n =>
      have hgood : SlopeGood (sl.extend c.1 c.2) :=
        hsl.extend c.1 c.2 (hcalls c (List.mem_cons_self c cs))
      have := ih (sl.extend c.1 c.2) hgood
        (fun d hd => hcalls d (List.mem_cons_of_mem c hd)) n
      simpa [applyExtends] using this

/-- C1: a `Slope` created from a nonempty, strictly time-ordered sample list
keeps, across any sequence of `extend()` calls on time-ordered inputs,
`min_rate`/`max_rate` equal to the true minimum/maximum of the rates of all
retained samples, and its sample list nonempty and strictly time-ordered;
moreover each `extend` appends exactly the input samples whose time is
strictly greater than the previous last sample's time (out-of-order or
duplicate timestamps are dropped). -/
theorem slope_extend_invariant
    (first : List HeartSample) (s0 : Rat) (calls : List (List HeartSample × Rat))
    (hne : first ≠ []) (hord : StrictTimeOrdered first)
    (hcalls : ∀ c ∈ calls, StrictTimeOrdered c.1) :
    (∀ n, SlopeGood (applyExtends (Slope.init first s0) (calls.take n)))
    ∧ ∀ (sl : Slope) (c : List HeartSample) (m : Rat),
        (sl.extend c m).samples
          = sl.samples ++ c.filter (fun s => decide (lastTime sl.samples < s.time)) := by
  constructor
  · exact applyExtends_take_good calls _ ⟨hne, hord, rfl, rfl⟩ hcalls
  · intro sl c m
    rfl

/-- Witness for C1 at a concrete slope and one concrete `extend` call: the
out-of-order input sample (time 500ms, before the last retained sample) is
dropped, the newer one is kept, and the extrema track the retained rates. -/
theorem slope_extend_invariant_witness :
    SlopeGood (applyExtends (Slope.init [⟨0, 60, []⟩, ⟨1000000000, 62, []⟩] 1)
      ([([⟨500000000, 100, []⟩, ⟨2000000000, 58, []⟩], 2)].take 1))
    ∧ ((Slope.init [⟨0, 60, []⟩, ⟨1000000000, 62, []⟩] 1).extend
        [⟨500000000, 100, []⟩, ⟨2000000000, 58, []⟩] 2).samples
        = [⟨0, 60, []⟩, ⟨1000000000, 62, []⟩]
          ++ [⟨500000000, 100, []⟩, ⟨2000000000, 58, []⟩].filter
            (fun s => decide (lastTime [⟨0, 60, []⟩, ⟨1000000000, 62, []⟩] < s.time)) := by
  have h := slope_extend_invariant [⟨0, 60, []⟩, ⟨1000000000, 62, []⟩] 1
    [([⟨500000000, 100, []⟩, ⟨2000000000, 58, []⟩], 2)]
    (by decide) (by decide) (by decide)
  exact ⟨h.1 1, h.2 _ _ _⟩

/-- `Slopes` from `src/stim/heart.py` lines 56-80: the history of committed
slopes, the in-progress slope, and the qualification thresholds. -/
structure Slopes where
  slopes : List Slope
  current : Option Slope
  min_slope_duration : Rat
  min_slope_height : Rat
deriving DecidableEq

/-- `Slopes.__init__(min_slope_duration, min_slope_height)`. -/
def Slopes.mk0 (min_slope_duration min_slope_height : Rat) : Slopes where
  slopes := []
  current := none
  min_slope_duration := min_slope_duration
  min_slope_height := min_slope_height

/-- `Slopes.check(window_samples, slope, above_threshold)` from
`src/stim/heart.py` lines 63-80, returning the updated state and the int
status code (0 none-active, 1 started, 2 extended, 3 committed). -/
def Slopes.check (ss : Slopes) (window_samples : List HeartSample) (slope : Rat)
    (above_threshold : Bool) : Slopes × Nat :=
  if above_threshold then
    match ss.current with
    | none => ({ ss with current := some (Slope.init window_samples slope) }, 1)
    | some cur => ({ ss with current := some (cur.extend window_samples slope) }, 2)
  else
    match ss.current with
    | some cur =>
      if ss.min_slope_duration < cur.duration ∧ ss.min_slope_height < cur.height then
        ({ ss with slopes := ss.slopes ++ [cur], current := none }, 3)
      else
        ({ ss with current := none }, 0)
    | none => ({ ss with current := none }, 0)

/-- The commit condition of claim C2: `check` is called with the condition
false while a slope is in progress, and that slope qualifies by duration and
height. -/
def CommitCond (ss : Slopes) (cur : Slope) (above_threshold : Bool) : Prop :=
  above_threshold = false ∧ ss.current = some cur ∧
    ss.min_slope_duration < cur.duration ∧ ss.min_slope_height < cur.height

instance (ss : Slopes) (cur : Slope) (ab : Bool) : Decidable (CommitCond ss cur ab) :=
  inferInstanceAs (Decidable (_ ∧ _))

/-- C2: a `Slope` is appended to the historical `slopes` list exactly when
`check` runs with the condition false while a current slope is in progress
whose duration strictly exceeds `min_slope_duration` and whose height
strictly exceeds `min_slope_height` (in which case it is appended at the
end); otherwise the history is unchanged and, when the condition is false,
the in-progress slope is discarded. With the configured constants
(`Window.__init__`), climbs and falls require duration > 3.0 and height > 6,
and coasts require duration > 8 and height > 0. -/
theorem slopes_commit_iff (ss : Slopes) (ws : List HeartSample) (m : Rat)
    (ab : Bool) :
    ((ss.check ws m ab).1.slopes ≠ ss.slopes ↔ ∃ cur, CommitCond ss cur ab)
    ∧ (∀ cur, CommitCond ss cur ab →
        (ss.check ws m ab).1.slopes = ss.slopes ++ [cur])
    ∧ (ab = false → ¬(∃ cur, CommitCond ss cur ab) →
        (ss.check ws m ab).1.slopes = ss.slopes
          ∧ (ss.check ws m ab).1.current = none)
    ∧ ((Slopes.mk0 3 6).min_slope_duration = 3 ∧ (Slopes.mk0 3 6).min_slope_height = 6
        ∧ (Slopes.mk0 8 0).min_slope_duration = 8 ∧ (Slopes.mk0 8 0).min_slope_height = 0) := by
  refine ⟨⟨?_, ?_⟩, ?_, ?_, ⟨rfl, rfl, rfl, rfl⟩⟩
  · intro hne
    cases ab with
    | true =>
      exfalso
      apply hne
      simp only [Slopes.check]
      cases ss.current <;> rfl
    | false =>
      simp only [Slopes.check, Bool.false_eq_true, if_false] at hne
      cases hcur : ss.current with
      | none => rw [hcur] at hne; exact absurd rfl hne
      | some cur =>
        rw [hcur] at hne
        by_cases hq : ss.min_slope_duration < cur.duration ∧ ss.min_slope_height < cur.height
        · exact ⟨cur, rfl, hcur, hq.1, hq.2⟩
        · simp [hq] at hne
  · rintro ⟨cur, hab, hcur, hd, hh⟩
    subst hab
    simp only [Slopes.check, Bool.false_eq_true, if_false, hcur, if_pos (And.intro hd hh)]
    simp
  · intro cur hc
    obtain ⟨hab, hcur, hd, hh⟩ := hc
    subst hab
    simp only [Slopes.check, Bool.false_eq_true, if_false, hcur, if_pos (And.intro hd hh)]
  · rintro rfl hno
    simp only [Slopes.check, Bool.false_eq_true, if_false]
    cases hcur : ss.current with
    | none => exact ⟨rfl, rfl⟩
    | some cur =>
      have hq : ¬(ss.min_slope_duration < cur.duration ∧ ss.min_slope_height < cur.height) := by
        intro hq
        exact hno ⟨cur, rfl, hcur, hq.1, hq.2⟩
      simp [hq]

/-- Witness for C2 at a concrete accumulator: a current slope spanning 4
seconds with height 10 against thresholds (3, 6) is committed by a
condition-false `check` call. -/
theorem slopes_commit_iff_witness :
    CommitCond
      ⟨[], some ⟨[⟨0, 60, []⟩, ⟨4000000000, 70, []⟩], 1, 1, 1, 60, 70⟩, 3, 6⟩
      ⟨[⟨0, 60, []⟩, ⟨4000000000, 70, []⟩], 1, 1, 1, 60, 70⟩ false
    ∧ ((Slopes.check
        ⟨[], some ⟨[⟨0, 60, []⟩, ⟨4000000000, 70, []⟩], 1, 1, 1, 60, 70⟩, 3, 6⟩
        [] 0 false).1.slopes
      = [] ++ [⟨[⟨0, 60, []⟩, ⟨4000000000, 70, []⟩], 1, 1, 1, 60, 70⟩]) := by
  have hcc : CommitCond
      ⟨[], some ⟨[⟨0, 60, []⟩, ⟨4000000000, 70, []⟩], 1, 1, 1, 60, 70⟩, 3, 6⟩
      ⟨[⟨0, 60, []⟩, ⟨4000000000, 70, []⟩], 1, 1, 1, 60, 70⟩ false := by
    refine ⟨rfl, rfl, ?_, ?_⟩
    · show (3 : Rat) < ((4000000000 - 0 : Int) : Rat) / 1000000000
      norm_num
    · show (6 : Rat) < 70 - 60
      norm_num
  exact ⟨hcc,
    (slopes_commit_iff
      ⟨[], some ⟨[⟨0, 60, []⟩, ⟨4000000000, 70, []⟩], 1, 1, 1, 60, 70⟩, 3, 6⟩
      [] 0 false).2.1 _ hcc⟩

/-- C9: every condition-false `check` call leaves `current = None`, whether
the in-progress slope was committed or discarded; and after any `check` call
either `current` is `None` or the historical list is unchanged, so no slope
is simultaneously the current one and a committed one. -/
theorem slopes_check_clears_current (ss : Slopes) (ws : List HeartSample) (m : Rat) :
    (ss.check ws m false).1.current = none
    ∧ ∀ ab : Bool, (ss.check ws m ab).1.current = none
        ∨ (ss.check ws m ab).1.slopes = ss.slopes := by
  constructor
  · cases hcur : ss.current with
    | none => simp [Slopes.check, hcur]
    | some cur =>
      by_cases hq : ss.min_slope_duration < cur.duration ∧ ss.min_slope_height < cur.height
      · simp [Slopes.check, hcur, hq]
      · simp [Slopes.check, hcur, hq]
  · intro ab
    cases ab with
    | true =>
      right
      cases hcur : ss.current <;> simp [Slopes.check, hcur]
    | false =>
      left
      cases hcur : ss.current with
      | none => simp [Slopes.check, hcur]
      | some cur =>
        by_cases hq : ss.min_slope_duration < cur.duration ∧ ss.min_slope_height < cur.height
        · simp [Slopes.check, hcur, hq]
        · simp [Slopes.check, hcur, hq]

/-- Arithmetic mean of a list (numpy-style; 0 on the empty list). -/
def mean (l : List Rat) : Rat :=
  l.sum / l.length

/-- `numpy.var`: population variance, the mean of squared deviations. -/
def variancePop (l : List Rat) : Rat :=
  mean (l.map (fun y => (y - mean l) ^ 2))

/-- The least-squares regression slope computed by `scipy.stats.linregress`:
covariance of x and y over the variance of x (as sums of products of
deviations from the means). -/
def lsSlope (xs ys : List Rat) : Rat :=
  (List.zipWith (fun x y => (x - mean xs) * (y - mean ys)) xs ys).sum
    / (xs.map (fun x => (x - mean xs) ^ 2)).sum

/-- Append to a `collections.deque` with a maximum length: the oldest
entries beyond `maxlen` are evicted. -/
def dequeAppend {α : Type _} (maxlen : Nat) (q : List α) (x : α) : List α :=
  let q' := q ++ [x]
  q'.drop (q'.length - maxlen)

theorem dequeAppend_length_le {α : Type _} (maxlen : Nat) (q : List α) (x : α) :
    (dequeAppend maxlen q x).length ≤ maxlen := by
  simp only [dequeAppend, List.length_drop]
  omega

/-- `Window` from `src/stim/heart.py` lines 83-120: the three `Slopes`
accumulators with their hard-coded thresholds, plus the last regression
results (the display-only `summary` glyph string is omitted). -/
structure Window where
  name : String
  width_seconds : Rat
  climbs : Slopes
  falls : Slopes
  coasts : Slopes
  last_slope : Rat
  last_variance : Rat
  slope_climbing : Bool
deriving DecidableEq

/-- `Window.__init__(name, width_seconds)` from `src/stim/heart.py`
lines 84-96. -/
def Window.init (name : String) (width_seconds : Rat) : Window where
  name := name
  width_seconds := width_seconds
  climbs := Slopes.mk0 3 6
  falls := Slopes.mk0 3 6
  coasts := Slopes.mk0 8 0
  last_slope := 0
  last_variance := 0
  slope_climbing := false

/-- `Window.sample(samples)` from `src/stim/heart.py` lines 98-120. -/
def Window.sample (w : Window) (samples : List HeartSample) : Window :=
  let last_time := lastTime samples
  let threshold : Rat := (last_time : Rat) - w.width_seconds * 1000000000
  let window_samples := samples.filter (fun s => decide (threshold ≤ (s.time : Rat)))
  if window_samples.length ≤ 1 then w
  else
    let xs := window_samples.map (fun s => ((s.time - last_time : Int) : Rat) / 1000000000)
    let ys := window_samples.map (fun s => s.rate)
    let slope := lsSlope xs ys
    let variance := variancePop ys
    let c := w.climbs.check window_samples slope (decide (3/10 < slope))
    let f := w.falls.check window_samples slope (decide (slope < -(3/10)))
    let q := w.coasts.check window_samples slope
      (decide (variance < 1 ∨ (slope < 1/10 ∧ -(1/10) < slope)))
    { w with climbs := c.1, falls := f.1, coasts := q.1,
             slope_climbing := decide (0 < slope ∧ w.last_slope ≤ slope),
             last_slope := slope, last_variance := variance }

theorem sum_map_add (xs : List Rat) (c : Rat) :
    (xs.map (fun x => x + c)).sum = xs.sum + xs.length * c := by
  induction xs with
  | nil => simp
  | cons x xs ih =>
    simp only [List.map_cons, List.sum_cons, ih, List.length_cons]
    push_cast
    ring

theorem mean_map_add (xs : List Rat) (c : Rat) (h : xs ≠ []) :
    mean (xs.map (fun x => x + c)) = mean xs + c := by
  have hl : (xs.length : Rat) ≠ 0 := by
    have := List.length_pos.mpr h
    positivity
  simp only [mean, List.length_map, sum_map_add]
  field_simp
  ring

/-- Invariance of the least-squares slope under a constant shift of the x
values: regressing rate against `(t - last_time)` gives the same slope as
regressing against `t` itself, so `Window.sample` does compute the slope of
rate versus time. -/
theorem lsSlope_shift (xs ys : List Rat) (c : Rat) (h : xs ≠ []) :
    lsSlope (xs.map (fun x => x + c)) ys = lsSlope xs ys := by
  unfold lsSlope
  rw [mean_map_add _ _ h]
  congr 1
  · rw [List.zipWith_map_left]
    have hfg : (fun (a b : Rat) => (a + c - (mean xs + c)) * (b - mean ys))
        = fun a b => (a - mean xs) * (b - mean ys) := by
      funext a b
      ring
    rw [hfg]
  · rw [List.map_map]
    have hfg : ((fun x => (x - (mean xs + c)) ^ 2) ∘ fun x => x + c)
        = fun (x : Rat) => (x - mean xs) ^ 2 := by
      funext x
      simp only [Function.comp_apply]
      ring
    rw [hfg]

/-- C5: `Window.sample` restricts the incoming history to the sub-window of
samples within the last `width_seconds` (10 s for the `Excitement` window,
whose history deque keeps at most the 20 most recent samples); when that
sub-window has at most one point nothing is computed or changed; with at
least two points it computes the least-squares regression slope of rate
versus time (shift-invariant, so centering times at the last sample does not
change it) and the population variance of rate, and feeds the three
accumulators with the conditions slope > 0.3 (climb), slope < -0.3 (fall),
and variance < 1 or slope strictly within (-0.1, 0.1) (coast). -/
theorem window_sample_spec (w : Window) (samples : List HeartSample) :
    let ws := samples.filter
      (fun s => decide ((lastTime samples : Rat) - w.width_seconds * 1000000000 ≤ (s.time : Rat)))
    let m := lsSlope
      (ws.map (fun s => ((s.time - lastTime samples : Int) : Rat) / 1000000000))
      (ws.map (fun s => s.rate))
    let v := variancePop (ws.map (fun s => s.rate))
    (ws.length ≤ 1 → w.sample samples = w)
    ∧ (1 < ws.length →
        (w.sample samples).last_slope = m
        ∧ (w.sample samples).last_variance = v
        ∧ (w.sample samples).slope_climbing = decide (0 < m ∧ w.last_slope ≤ m)
        ∧ (w.sample samples).climbs = (w.climbs.check ws m (decide (3/10 < m))).1
        ∧ (w.sample samples).falls = (w.falls.check ws m (decide (m < -(3/10)))).1
        ∧ (w.sample samples).coasts
            = (w.coasts.check ws m (decide (v < 1 ∨ (m < 1/10 ∧ -(1/10) < m)))).1)
    ∧ ((Window.init "10s" 10).width_seconds = 10
        ∧ ∀ (h : List HeartSample) (s : HeartSample), (dequeAppend 20 h s).length ≤ 20)
    ∧ (∀ (c : Rat) (xs ys : List Rat), xs ≠ [] →
        lsSlope (xs.map (fun x => x + c)) ys = lsSlope xs ys) := by
  intro ws m v
  refine ⟨?_, ?_, ⟨rfl, fun h s => dequeAppend_length_le 20 h s⟩,
    fun c xs ys hne => lsSlope_shift xs ys c hne⟩
  · intro hle
    unfold ws at hle
    simp only [Window.sample]
    rw [if_pos hle]
  · intro hlt
    unfold ws at hlt
    have hnle : ¬(samples.filter
        (fun s => decide ((lastTime samples : Rat) - w.width_seconds * 1000000000
          ≤ (s.time : Rat)))).length ≤ 1 := by omega
    unfold m v ws
    simp only [Window.sample]
    rw [if_neg hnle]
    exact ⟨rfl, rfl, rfl, rfl, rfl, rfl⟩

/-- Witness for C5 on the empty history: the sub-window has at most one
point, so the window state is returned unchanged. -/
theorem window_sample_spec_witness :
    (([] : List HeartSample).filter
      (fun s => decide ((lastTime ([] : List HeartSample) : Rat)
        - (Window.init "10s" 10).width_seconds * 1000000000 ≤ (s.time : Rat)))).length ≤ 1
    ∧ (Window.init "10s" 10).sample [] = Window.init "10s" 10 :=
  ⟨by decide, (window_sample_spec (Window.init "10s" 10) []).1 (by decide)⟩

/-- `HSpan` from `src/pyeep/heart/improvised.py` lines 117-123. -/
structure HSpan where
  min_sample : HeartSample
  max_sample : HeartSample
deriving DecidableEq

/-- The state of `Excitement` from `src/pyeep/heart/improvised.py`
lines 126-136 (the `quiet`/callback/receiver plumbing is omitted; `history`
is a deque with `maxlen=20`). -/
structure Excitement where
  history : List HeartSample
  window : Window
  hspans : List HSpan
  current_hspan : Option HSpan
  interesting : Bool
deriving DecidableEq

/-- `Excitement.__init__`. -/
def Excitement.init : Excitement where
  history := []
  window := Window.init "10s" 10
  hspans := []
  current_hspan := none
  interesting := false

/-- The recovery threshold selected by `Excitement.check_history` in
`src/pyeep/heart/improvised.py` lines 220-227: `last_fall.min_rate` when
only a fall exists or the fall is more recent than the coast,
`last_coast.mid_rate + 1` when only a coast exists, and `last_coast.mid_rate`
when both exist and the coast is more recent. 0 in the unreachable case
where neither exists (the caller guards on `last_fall or last_coast`). -/
def recoveryThreshold (last_fall last_coast : Option Slope) : Rat :=
  match last_fall, last_coast with
  | none, some co => co.mid_rate + 1
  | some fa, none => fa.min_rate
  | some fa, some co =>
    if lastTime co.samples < lastTime fa.samples then fa.min_rate else co.mid_rate
  | none, none => 0

/-- The boolean computed into `self.interesting` by
`Excitement.check_history` (`src/pyeep/heart/improvised.py` lines 213-229),
as a function of the already-updated window and of the history. -/
def interestingFlag (w : Window) (samples : List HeartSample) : Bool :=
  let prev_rate := (samples.getD (samples.length - 2) default).rate
  let cur_rate := (samples.getLastD default).rate
  let last_fall := w.falls.slopes.getLast?
  let last_coast := w.coasts.slopes.getLast?
  if w.slope_climbing = true ∧ (last_fall.isSome ∨ last_coast.isSome) then
    decide (prev_rate < cur_rate
      ∧ recoveryThreshold last_fall last_coast ≤ cur_rate
      ∧ w.falls.current = none)
  else false

/-- `Excitement.check_history` from `src/pyeep/heart/improvised.py`
lines 204-245: the early return on fewer than 2 samples, the window update,
the `interesting` recomputation, and the `HSpan` bookkeeping. -/
def Excitement.check_history (e : Excitement) : Excitement :=
  if e.history.length < 2 then e
  else
    let w := e.window.sample e.history
    let flag := interestingFlag w e.history
    let last := e.history.getLastD default
    let e1 := { e with window := w, interesting := flag }
    if flag then
      match e.current_hspan with
      | none => { e1 with current_hspan := some ⟨last, last⟩ }
      | some h => { e1 with current_hspan := some { h with max_sample := last } }
    else
      match e.current_hspan with
      | some h => { e1 with hspans := e.hspans ++ [h], current_hspan := none }
      | none => e1

/-- `Excitement.process_sample` (`src/pyeep/heart/improvised.py`
lines 253-258): append to the 20-sample ring, then re-analyze. -/
def Excitement.process_sample (e : Excitement) (s : HeartSample) : Excitement :=
  Excitement.check_history { e with history := dequeAppend 20 e.history s }

theorem check_history_interesting_eq (e : Excitement)
    (h2 : ¬ e.history.length < 2) :
    (e.check_history).interesting
      = interestingFlag (e.window.sample e.history) e.history := by
  simp only [Excitement.check_history]
  rw [if_neg h2]
  split
  · split <;> rfl
  · split <;> rfl

/-- The recovery threshold as claim C3 words it for the improvised variant,
reading the parenthetical "+1 added in one implementation variant" as
applying to the whole otherwise-branch (`last_coast.mid_rate`): the fall's
`min_rate` when the fall is the more recent prior event or no coast exists,
and `last_coast.mid_rate + 1` otherwise. -/
def claimRecoveryThreshold (last_fall last_coast : Option Slope) : Rat :=
  match last_fall, last_coast with
  | none, some co => co.mid_rate + 1
  | some fa, none => fa.min_rate
  | some fa, some co =>
    if lastTime co.samples < lastTime fa.samples then fa.min_rate else co.mid_rate + 1
  | none, none => 0

/-- The condition claim C3 states for "interesting" in the improvised
variant, using `claimRecoveryThreshold`. -/
def ClaimInteresting (e : Excitement) : Prop :=
  (e.window.sample e.history).slope_climbing = true
  ∧ ((e.window.sample e.history).falls.slopes ≠ []
      ∨ (e.window.sample e.history).coasts.slopes ≠ [])
  ∧ (e.window.sample e.history).falls.current = none
  ∧ (e.history.getD (e.history.length - 2) default).rate
      < (e.history.getLastD default).rate
  ∧ claimRecoveryThreshold (e.window.sample e.history).falls.slopes.getLast?
      (e.window.sample e.history).coasts.slopes.getLast?
      ≤ (e.history.getLastD default).rate

/-- C3 as amended: with at least two samples of history, `check_history`
sets `interesting` exactly when the freshly updated window is climbing, at
least one completed fall or coast exists, no fall is active, the current
rate strictly exceeds the previous one, and the current rate has reached the
recovery threshold — which is `last_fall.min_rate` when only a fall exists
or the fall is more recent, `last_coast.mid_rate + 1` when only a coast
exists, and `last_coast.mid_rate` (without the +1) when both exist and the
coast is more recent. -/
theorem check_history_interesting_iff (e : Excitement) (h2 : 2 ≤ e.history.length) :
    ((e.check_history).interesting = true ↔
      ((e.window.sample e.history).slope_climbing = true
        ∧ ((e.window.sample e.history).falls.slopes ≠ []
            ∨ (e.window.sample e.history).coasts.slopes ≠ [])
        ∧ (e.window.sample e.history).falls.current = none
        ∧ (e.history.getD (e.history.length - 2) default).rate
            < (e.history.getLastD default).rate
        ∧ recoveryThreshold (e.window.sample e.history).falls.slopes.getLast?
            (e.window.sample e.history).coasts.slopes.getLast?
            ≤ (e.history.getLastD default).rate))
    ∧ (∀ fa co : Slope,
        recoveryThreshold (some fa) none = fa.min_rate
        ∧ recoveryThreshold none (some co) = co.mid_rate + 1
        ∧ recoveryThreshold (some fa) (some co)
            = if lastTime co.samples < lastTime fa.samples
              then fa.min_rate else co.mid_rate) := by
  constructor
  · rw [check_history_interesting_eq e (by omega)]
    simp only [interestingFlag]
    by_cases hcl : (e.window.sample e.history).slope_climbing = true
    · by_cases hex : ((e.window.sample e.history).falls.slopes.getLast?).isSome
          ∨ ((e.window.sample e.history).coasts.slopes.getLast?).isSome
      · rw [if_pos ⟨hcl, hex⟩, decide_eq_true_eq]
        constructor
        · rintro ⟨hpc, hth, hcur⟩
          refine ⟨hcl, ?_, hcur, hpc, hth⟩
          rcases hex with h | h
          · exact Or.inl (by simpa [List.getLast?_isSome] using h)
          · exact Or.inr (by simpa [List.getLast?_isSome] using h)
        · rintro ⟨_, _, hcur, hpc, hth⟩
          exact ⟨hpc, hth, hcur⟩
      · rw [if_neg (by tauto)]
        simp only [Bool.false_eq_true, false_iff]
        rintro ⟨_, hne, _⟩
        apply hex
        rcases hne with h | h
        · exact Or.inl (by simpa [List.getLast?_isSome] using h)
        · exact Or.inr (by simpa [List.getLast?_isSome] using h)
    · rw [if_neg (by tauto)]
      simp only [Bool.false_eq_true, false_iff]
      rintro ⟨hc, _⟩
      exact hcl hc
  · intro fa co
    exact ⟨rfl, rfl, rfl⟩

/-- A concrete `Excitement` state for the C3 counterexample: history rates
60 then 61 (20 s apart, so the analysis sub-window has a single point and
the window state persists), `slope_climbing` set, a completed fall
(min_rate 55, last time 4) and a more recent completed coast
(min 55, max 66, so mid_rate 60.5, last time 5), no active fall. -/
def excitementCex : Excitement where
  history := [⟨0, 60, []⟩, ⟨20000000000, 61, []⟩]
  window :=
    ⟨"10s", 10, Slopes.mk0 3 6,
      ⟨[⟨[⟨4, 55, []⟩], 0, 0, 0, 55, 65⟩], none, 3, 6⟩,
      ⟨[⟨[⟨5, 55, []⟩], 0, 0, 0, 55, 66⟩], none, 8, 0⟩,
      0, 0, true⟩
  hspans := []
  current_hspan := none
  interesting := false

/-- Counterexample to C3 as stated: with both a completed fall and a more
recent completed coast, and the current rate (61) between the coast's
`mid_rate` (60.5) and `mid_rate + 1` (61.5), the code sets `interesting`
(the improvised variant adds the +1 only when no completed fall exists),
while the claim's threshold with the +1 demands `interesting` stay false. -/
theorem check_history_plus_one_cex :
    (excitementCex.check_history).interesting = true
    ∧ ¬ ClaimInteresting excitementCex := by
  have hsample : excitementCex.window.sample excitementCex.history
      = excitementCex.window := by
    unfold excitementCex Window.sample
    norm_num [lastTime, List.getLastD_cons, List.getLastD, List.filter]
  constructor
  · rw [check_history_interesting_eq excitementCex (by norm_num [excitementCex])]
    rw [hsample]
    norm_num [interestingFlag, excitementCex, recoveryThreshold, Slope.mid_rate,
      lastTime, List.getLastD_cons, List.getLastD]
  · simp only [ClaimInteresting]
    rw [hsample]
    norm_num [excitementCex, claimRecoveryThreshold, Slope.mid_rate,
      lastTime, List.getLastD_cons, List.getLastD]

/-- Witness for the amended C3 theorem: a two-sample history satisfies the
length hypothesis, and the recovery-threshold case equations hold at
concrete fall/coast slopes. -/
theorem check_history_interesting_iff_witness :
    2 ≤ (Excitement.mk [⟨0, 60, []⟩, ⟨1000000000, 61, []⟩]
      (Window.init "10s" 10) [] none false).history.length
    ∧ (recoveryThreshold (some ⟨[⟨4, 55, []⟩], 0, 0, 0, 55, 65⟩) none
        = (⟨[⟨4, 55, []⟩], 0, 0, 0, 55, 65⟩ : Slope).min_rate
      ∧ recoveryThreshold none (some ⟨[⟨5, 55, []⟩], 0, 0, 0, 55, 66⟩)
        = (⟨[⟨5, 55, []⟩], 0, 0, 0, 55, 66⟩ : Slope).mid_rate + 1
      ∧ recoveryThreshold (some ⟨[⟨4, 55, []⟩], 0, 0, 0, 55, 65⟩)
          (some ⟨[⟨5, 55, []⟩], 0, 0, 0, 55, 66⟩)
        = if lastTime [(⟨5, 55, []⟩ : HeartSample)] < lastTime [(⟨4, 55, []⟩ : HeartSample)]
          then (⟨[⟨4, 55, []⟩], 0, 0, 0, 55, 65⟩ : Slope).min_rate
          else (⟨[⟨5, 55, []⟩], 0, 0, 0, 55, 66⟩ : Slope).mid_rate) :=
  ⟨by decide,
    (check_history_interesting_iff
      (Excitement.mk [⟨0, 60, []⟩, ⟨1000000000, 61, []⟩]
        (Window.init "10s" 10) [] none false) (by decide)).2
      ⟨[⟨4, 55, []⟩], 0, 0, 0, 55, 65⟩ ⟨[⟨5, 55, []⟩], 0, 0, 0, 55, 66⟩⟩

/-- `GyroAxis` state from `src/stim/muse2.py` lines 242-264. The per-axis
calibration file (a small JSON object whose single key `bias` holds a float)
is modelled as an `Option Rat` passed to `init`; `calWrites` records, in
order, every bias value written to that file by `add`. The analysis window
is a deque with `maxlen = 64`. -/
structure GyroAxis where
  name : String
  bias_samples : List Rat
  bias : Option Rat
  window : List Rat
  calWrites : List Rat
deriving DecidableEq

/-- `GyroAxis.__init__(name)`: `stored` is the bias read from the
calibration file `.cal_gyro_<name>` when that file exists, else `none`. -/
def GyroAxis.init (name : String) (stored : Option Rat) : GyroAxis where
  name := name
  bias_samples := []
  bias := stored
  window := []
  calWrites := []

/-- `GyroAxis.add(sample)` from `src/stim/muse2.py` lines 257-264: collect
the first 128 raw samples while no bias is known; on the next sample compute
`bias = mean(bias_samples)`, write it to the calibration file, and from then
on append `sample - bias` to the analysis window. -/
def GyroAxis.add (a : GyroAxis) (sample : Rat) : GyroAxis :=
  if a.bias = none ∧ a.bias_samples.length < 128 then
    { a with bias_samples := a.bias_samples ++ [sample] }
  else
    match a.bias with
    | none =>
      let b := mean a.bias_samples
      { a with bias := some b, calWrites := a.calWrites ++ [b],
               window := dequeAppend 64 a.window (sample - b) }
    | some b => { a with window := dequeAppend 64 a.window (sample - b) }

/-- Feed a list of raw samples to an axis in order. -/
def GyroAxis.addAll (a : GyroAxis) (samples : List Rat) : GyroAxis :=
  samples.foldl GyroAxis.add a

theorem addAll_calibrating (nm : String) :
    ∀ (xs bs : List Rat), bs.length + xs.length ≤ 128 →
      GyroAxis.addAll ⟨nm, bs, none, [], []⟩ xs = ⟨nm, bs ++ xs, none, [], []⟩ := by
  intro xs
  induction xs with
  | nil => intro bs _; simp [GyroAxis.addAll]
  | cons x xs ih =>
    intro bs hlen
    have hstep : GyroAxis.add ⟨nm, bs, none, [], []⟩ x = ⟨nm, bs ++ [x], none, [], []⟩ := by
      unfold GyroAxis.add
      rw [if_pos ⟨rfl, by simp at hlen ⊢; omega⟩]
    show GyroAxis.addAll (GyroAxis.add ⟨nm, bs, none, [], []⟩ x) xs = _
    rw [hstep, ih (bs ++ [x]) (by simp at hlen ⊢; omega)]
    simp

theorem add_converges (nm : String) (bs w cw : List Rat) (s : Rat)
    (hfull : ¬ bs.length < 128) :
    GyroAxis.add ⟨nm, bs, none, w, cw⟩ s
      = ⟨nm, bs, some (mean bs), dequeAppend 64 w (s - mean bs), cw ++ [mean bs]⟩ := by
  unfold GyroAxis.add
  rw [if_neg (by simp [hfull])]

theorem add_biased (a : GyroAxis) (b : Rat) (s : Rat) (hb : a.bias = some b) :
    a.add s = { a with window := dequeAppend 64 a.window (s - b) } := by
  unfold GyroAxis.add
  rw [if_neg (by simp [hb])]
  rw [hb]

theorem addAll_biased (a : GyroAxis) (b : Rat) (xs : List Rat) (hb : a.bias = some b) :
    (a.addAll xs).bias = some b ∧ (a.addAll xs).calWrites = a.calWrites
      ∧ (a.addAll xs).bias_samples = a.bias_samples
      ∧ (a.addAll xs).name = a.name := by
  induction xs generalizing a with
  | nil => exact ⟨hb, rfl, rfl, rfl⟩
  | cons x xs ih =>
    have h1 : a.addAll (x :: xs)
        = GyroAxis.addAll { a with window := dequeAppend 64 a.window (x - b) } xs := by
      show (a.add x).addAll xs = _
      rw [add_biased a b x hb]
    rw [h1]
    exact ih { a with window := dequeAppend 64 a.window (x - b) } hb

/-- C4: with no persisted calibration, the first 128 raw samples produce no
processed sample (the window stays empty and no bias is set); the 129th
call computes the bias as the mean of those 128 raw samples and appends the
first window value, `raw - mean`; every later sample is likewise appended
bias-corrected. -/
theorem gyro_calibration_phase (nm : String) (raws : List Rat) (s129 : Rat)
    (hlen : raws.length = 128) :
    (∀ k, k ≤ 128 →
        (GyroAxis.addAll (GyroAxis.init nm none) (raws.take k)).window = []
        ∧ (GyroAxis.addAll (GyroAxis.init nm none) (raws.take k)).bias = none)
    ∧ ((GyroAxis.addAll (GyroAxis.init nm none) raws).add s129).bias
        = some (mean raws)
    ∧ ((GyroAxis.addAll (GyroAxis.init nm none) raws).add s129).window
        = [s129 - mean raws]
    ∧ (∀ (a : GyroAxis) (b s : Rat), a.bias = some b →
        (a.add s).window = dequeAppend 64 a.window (s - b)) := by
  have hphase : ∀ k, k ≤ 128 →
      GyroAxis.addAll (GyroAxis.init nm none) (raws.take k)
        = ⟨nm, raws.take k, none, [], []⟩ := by
    intro k hk
    refine addAll_calibrating nm (raws.take k) [] ?_
    simp only [List.length_nil, List.length_take, Nat.zero_add]
    omega
  have hfull : GyroAxis.addAll (GyroAxis.init nm none) raws
      = ⟨nm, raws, none, [], []⟩ := by
    refine addAll_calibrating nm raws [] ?_
    simp only [List.length_nil, Nat.zero_add]
    omega
  refine ⟨fun k hk => by rw [hphase k hk]; exact ⟨rfl, rfl⟩, ?_, ?_, ?_⟩
  · rw [hfull, add_converges nm raws [] [] s129 (by omega)]
  · rw [hfull, add_converges nm raws [] [] s129 (by omega)]
    rfl
  · intro a b s hb
    rw [add_biased a b s hb]

/-- Witness for C4 at 128 zero raw samples followed by sample 7. -/
theorem gyro_calibration_phase_witness :
    (List.replicate 128 (0 : Rat)).length = 128
    ∧ ((GyroAxis.addAll (GyroAxis.init "x" none) (List.replicate 128 (0 : Rat))).add 7).window
        = [7 - mean (List.replicate 128 (0 : Rat))] :=
  ⟨by simp,
    (gyro_calibration_phase "x" (List.replicate 128 (0 : Rat)) 7 (by simp)).2.2.1⟩

/-- C6: from a fresh axis, feeding at least 129 raw samples writes the bias
to the calibration file exactly once, with value the mean of the first 128
samples, which is also the converged in-memory bias; a fresh axis
constructed with that stored bias skips calibration entirely (no bias
samples are collected, nothing further is written) and its very first `add`
appends the bias-corrected sample to the window. -/
theorem gyro_calibration_roundtrip (nm nm2 : String) (raws : List Rat) (s : Rat)
    (hlen : 129 ≤ raws.length) :
    (GyroAxis.addAll (GyroAxis.init nm none) raws).calWrites
        = [mean (raws.take 128)]
    ∧ (GyroAxis.addAll (GyroAxis.init nm none) raws).bias
        = some (mean (raws.take 128))
    ∧ (∀ b : Rat,
        (GyroAxis.init nm2 (some b)).bias = some b
        ∧ ((GyroAxis.init nm2 (some b)).add s).window = [s - b]
        ∧ ((GyroAxis.init nm2 (some b)).add s).bias_samples = []
        ∧ ((GyroAxis.init nm2 (some b)).add s).calWrites = []) := by
  obtain ⟨t, r, hraws, htlen⟩ : ∃ t r, raws = t ++ r ∧ t.length = 128 :=
    ⟨raws.take 128, raws.drop 128, (List.take_append_drop _ _).symm,
      by rw [List.length_take]; omega⟩
  obtain ⟨d, ds, hr⟩ : ∃ d ds, r = d :: ds := by
    cases hc : r with
    | nil =>
      exfalso
      rw [hraws, hc] at hlen
      simp [htlen] at hlen
    | cons d ds => exact ⟨d, ds, rfl⟩
  subst hr
  subst hraws
  have htake : (t ++ d :: ds).take 128 = t := by
    rw [← htlen]
    exact List.take_left t (d :: ds)
  rw [htake]
  have hphase : GyroAxis.addAll (GyroAxis.init nm none) t = ⟨nm, t, none, [], []⟩ := by
    refine addAll_calibrating nm t [] ?_
    simp only [List.length_nil, Nat.zero_add]
    omega
  have hconv : GyroAxis.add ⟨nm, t, none, [], []⟩ d
      = ⟨nm, t, some (mean t), dequeAppend 64 [] (d - mean t), [mean t]⟩ := by
    rw [add_converges nm t [] [] d (by omega)]
    rfl
  have hsteps : GyroAxis.addAll (GyroAxis.init nm none) (t ++ d :: ds)
      = GyroAxis.addAll
          ⟨nm, t, some (mean t), dequeAppend 64 [] (d - mean t), [mean t]⟩ ds := by
    unfold GyroAxis.addAll
    rw [List.foldl_append, List.foldl_cons]
    have h0 : List.foldl GyroAxis.add (GyroAxis.init nm none) t
        = (⟨nm, t, none, [], []⟩ : GyroAxis) := hphase
    rw [h0, hconv]
  have hrest := addAll_biased
    ⟨nm, t, some (mean t), dequeAppend 64 [] (d - mean t), [mean t]⟩
    (mean t) ds rfl
  refine ⟨?_, ?_, ?_⟩
  · rw [hsteps]
    exact hrest.2.1
  · rw [hsteps]
    exact hrest.1
  · intro b
    refine ⟨rfl, ?_, ?_, ?_⟩
    · rw [add_biased (GyroAxis.init nm2 (some b)) b s rfl]
      rfl
    · rw [add_biased (GyroAxis.init nm2 (some b)) b s rfl]
      rfl
    · rw [add_biased (GyroAxis.init nm2 (some b)) b s rfl]
      rfl

/-- Witness for C6 at 129 zero raw samples and a re-loaded bias of 5. -/
theorem gyro_calibration_roundtrip_witness :
    129 ≤ (List.replicate 129 (0 : Rat)).length
    ∧ (GyroAxis.addAll (GyroAxis.init "x" none) (List.replicate 129 (0 : Rat))).calWrites
        = [mean ((List.replicate 129 (0 : Rat)).take 128)]
    ∧ ((GyroAxis.init "y" (some 5)).add 9).window = [9 - 5] :=
  ⟨by simp,
    (gyro_calibration_roundtrip "x" "y" (List.replicate 129 (0 : Rat)) 9 (by simp)).1,
    ((gyro_calibration_roundtrip "x" "y" (List.replicate 129 (0 : Rat)) 9 (by simp)).2.2 5).2.1⟩

/-- `numpy.argmax`: the first index of the maximum of a list (0 on the
empty list). -/
def argmaxIdx : List Rat → Nat
  | [] => 0
  | x :: xs =>
    let j := argmaxIdx xs
    if xs.getD j x ≤ x then 0 else j + 1

/-- `numpy.fft.fftfreq(64, 1/52)`: bin k maps to frequency `k * 52 / 64` for
k below 32, and to the negative frequency `(k - 64) * 52 / 64` above. -/
def fftfreq64 (k : Nat) : Rat :=
  if k < 32 then (k : Rat) * 52 / 64 else ((k : Rat) - 64) * 52 / 64

/-- `GyroAxis.value()` from `src/stim/muse2.py` lines 266-278: `(0, 0)`
until the 64-sample window is full; otherwise the (frequency, power) pair of
the strongest of the lower 32 rfft bins. The composite floating-point
transform `abs(scipy.fft.rfft(hamming * window))` (Hamming windowing
followed by the magnitude FFT) is not representable computably and is
abstracted as the `powersOf` parameter mapping the 64 window samples to the
33 rfft magnitude bins. -/
def GyroAxis.value (powersOf : List Rat → List Rat) (a : GyroAxis) : Rat × Rat :=
  if a.window.length = 64 then
    let powers := powersOf a.window
    let idx := argmaxIdx (powers.take 32)
    (fftfreq64 idx, powers.getD idx 0)
  else (0, 0)

theorem argmaxIdx_lt_length (l : List Rat) (h : l ≠ []) : argmaxIdx l < l.length := by
  induction l with
  | nil => exact absurd rfl h
  | cons x xs ih =>
    simp only [argmaxIdx]
    by_cases hc : xs.getD (argmaxIdx xs) x ≤ x
    · rw [if_pos hc]
      simp
    · rw [if_neg hc]
      have hxs : xs ≠ [] := by
        intro habs
        rw [habs] at hc
        simp [List.getD] at hc
      have := ih hxs
      simpa using this

theorem getD_le_argmaxIdx (l : List Rat) :
    ∀ i, i < l.length → l.getD i 0 ≤ l.getD (argmaxIdx l) 0 := by
  induction l with
  | nil => intro i hi; simp at hi
  | cons x xs ih =>
    intro i hi
    simp only [argmaxIdx]
    by_cases hc : xs.getD (argmaxIdx xs) x ≤ x
    · rw [if_pos hc]
      cases i with
      | zero => simp [List.getD]
      | succ i =>
        simp only [List.getD_cons_succ, List.getD_cons_zero]
        have hin : i < xs.length := by simpa using hi
        have hxs : xs ≠ [] := by
          intro habs
          rw [habs] at hin
          simp at hin
        have hj : argmaxIdx xs < xs.length := argmaxIdx_lt_length xs hxs
        have h2 : xs.getD (argmaxIdx xs) 0 = xs.getD (argmaxIdx xs) x := by
          rw [List.getD_eq_getElem _ _ hj, List.getD_eq_getElem _ _ hj]
        calc xs.getD i 0 ≤ xs.getD (argmaxIdx xs) 0 := ih i hin
          _ = xs.getD (argmaxIdx xs) x := h2
          _ ≤ x := hc
    · rw [if_neg hc]
      have hxs : xs ≠ [] := by
        intro habs
        rw [habs] at hc
        simp [List.getD] at hc
      have hj : argmaxIdx xs < xs.length := argmaxIdx_lt_length xs hxs
      have h2 : xs.getD (argmaxIdx xs) 0 = xs.getD (argmaxIdx xs) x := by
        rw [List.getD_eq_getElem _ _ hj, List.getD_eq_getElem _ _ hj]
      cases i with
      | zero =>
        simp only [List.getD_cons_zero, List.getD_cons_succ]
        rw [h2]
        exact le_of_lt (lt_of_not_le hc)
      | succ i =>
        simp only [List.getD_cons_succ]
        exact ih i (by simpa using hi)

theorem value_not_full (powersOf : List Rat → List Rat) (a : GyroAxis)
    (h : a.window.length ≠ 64) : a.value powersOf = (0, 0) := by
  unfold GyroAxis.value
  rw [if_neg h]

theorem getD_take_eq (l : List Rat) (n i : Nat) (hi : i < n) (hil : i < l.length) :
    (l.take n).getD i 0 = l.getD i 0 := by
  have h1 : i < (l.take n).length := by
    rw [List.length_take]
    omega
  rw [List.getD_eq_getElem _ _ h1, List.getD_eq_getElem _ _ hil]
  exact List.getElem_take l

/-- C8: `GyroAxis.value()` returns `(0, 0)` whenever the window holds fewer
than 64 samples; with a full window it returns the (frequency, power) pair
of the first arg-max bin among the lower 32 rfft magnitude bins of the
(abstracted) Hamming-windowed FFT, whose power dominates every lower bin. -/
theorem gyro_value_spec (powersOf : List Rat → List Rat) (a : GyroAxis)
    (hlen : (powersOf a.window).length = 33) :
    (a.window.length < 64 → a.value powersOf = (0, 0))
    ∧ (a.window.length = 64 →
        argmaxIdx ((powersOf a.window).take 32) < 32
        ∧ a.value powersOf
            = (fftfreq64 (argmaxIdx ((powersOf a.window).take 32)),
               (powersOf a.window).getD (argmaxIdx ((powersOf a.window).take 32)) 0)
        ∧ ∀ i, i < 32 → (powersOf a.window).getD i 0
            ≤ (powersOf a.window).getD (argmaxIdx ((powersOf a.window).take 32)) 0) := by
  constructor
  · intro hlt
    exact value_not_full powersOf a (Nat.ne_of_lt hlt)
  · intro h64
    have htl : ((powersOf a.window).take 32).length = 32 := by
      rw [List.length_take, hlen]
      omega
    have htne : (powersOf a.window).take 32 ≠ [] := by
      intro habs
      rw [habs] at htl
      simp at htl
    have hidx : argmaxIdx ((powersOf a.window).take 32) < 32 := by
      have := argmaxIdx_lt_length _ htne
      rwa [htl] at this
    refine ⟨hidx, ?_, ?_⟩
    · unfold GyroAxis.value
      rw [if_pos h64]
    · intro i hi
      have h1 := getD_le_argmaxIdx ((powersOf a.window).take 32) i (by omega)
      rwa [getD_take_eq _ 32 i hi (by omega),
        getD_take_eq _ 32 _ hidx (by omega)] at h1

/-- A stand-in for the abstracted FFT magnitude pipeline: 33 flat bins. -/
def flatPowers : List Rat → List Rat :=
  fun _ => List.replicate 33 0

/-- Witness for C8 on a full window of zeros under `flatPowers`. -/
theorem gyro_value_spec_witness :
    (flatPowers (GyroAxis.mk "x" [] (some 0) (List.replicate 64 0) []).window).length = 33
    ∧ (GyroAxis.mk "x" [] (some 0) (List.replicate 64 0) []).window.length = 64
    ∧ (GyroAxis.mk "x" [] (some 0) (List.replicate 64 0) []).value flatPowers
        = (fftfreq64 (argmaxIdx ((flatPowers
            (GyroAxis.mk "x" [] (some 0) (List.replicate 64 0) []).window).take 32)),
           (flatPowers (GyroAxis.mk "x" [] (some 0) (List.replicate 64 0) []).window).getD
            (argmaxIdx ((flatPowers
              (GyroAxis.mk "x" [] (some 0) (List.replicate 64 0) []).window).take 32)) 0) :=
  ⟨by simp [flatPowers], by simp,
    ((gyro_value_spec flatPowers (GyroAxis.mk "x" [] (some 0) (List.replicate 64 0) [])
      (by simp [flatPowers])).2 (by simp)).2.1⟩

/-- The three-axis state of `HeadMovement` / `ModeHeadMovement`
(`src/stim/muse2.py` lines 281-289 and 445-453). -/
structure HeadMovement where
  x_axis : GyroAxis
  y_axis : GyroAxis
  z_axis : GyroAxis
deriving DecidableEq

/-- `HeadMovement.__init__`: the three axes named x, y, z, each loading its
own stored calibration if present. -/
def HeadMovement.init (sx sy sz : Option Rat) : HeadMovement where
  x_axis := GyroAxis.init "x" sx
  y_axis := GyroAxis.init "y" sy
  z_axis := GyroAxis.init "z" sz

/-- The `selected` accumulation loop of `HeadMovement.process_samples`
(`src/stim/muse2.py` lines 483-487): keep the candidate with the strictly
greater power, so ties keep the earlier axis. -/
def selectBest (cands : List (String × Rat × Rat)) : Option (String × Rat × Rat) :=
  cands.foldl
    (fun sel c =>
      match sel with
      | none => some c
      | some s => if s.2.2 < c.2.2 then some c else some s)
    none

/-- The final emission test of `HeadMovement.process_samples`
(`src/stim/muse2.py` lines 489-492): the strongest (axis, freq, power)
triple is emitted iff its power strictly exceeds 500. -/
def emitStep (powersOf : List Rat → List Rat) (hm2 : HeadMovement) :
    Option (String × Rat × Rat) :=
  match selectBest
      [(hm2.x_axis.name, hm2.x_axis.value powersOf),
       (hm2.y_axis.name, hm2.y_axis.value powersOf),
       (hm2.z_axis.name, hm2.z_axis.value powersOf)] with
  | some s => if 500 < s.2.2 then some s else none
  | none => none

/-- `HeadMovement.process_samples` from `src/stim/muse2.py` lines 477-492
(equivalently `ModeHeadMovement.on_gyro`, lines 291-308, which feeds the
same per-axis samples axis by axis): feed the batch to the three axes, then
select the strongest axis and emit its raw (axis, freq, power) triple iff
the power exceeds 500. -/
def HeadMovement.process_samples (powersOf : List Rat → List Rat)
    (hm : HeadMovement) (samples : List (Rat × Rat × Rat)) :
    HeadMovement × Option (String × Rat × Rat) :=
  let hm2 : HeadMovement :=
    ⟨hm.x_axis.addAll (samples.map (fun p => p.1)),
     hm.y_axis.addAll (samples.map (fun p => p.2.1)),
     hm.z_axis.addAll (samples.map (fun p => p.2.2))⟩
  (hm2, emitStep powersOf hm2)

/-- The power field of the sent `HeadShaken` message:
`10 * math.log10(power ** 2)`. -/
noncomputable def headShakenPowerDb (p : Rat) : Real :=
  10 * Real.logb 10 ((p : Real) ^ 2)

/-- The `HeadShaken` message sent by `HeadMovement.process_samples`, with
the power converted to dB. -/
noncomputable def HeadMovement.sentMessage (powersOf : List Rat → List Rat)
    (hm : HeadMovement) (samples : List (Rat × Rat × Rat)) :
    Option (String × Rat × Real) :=
  (hm.process_samples powersOf samples).2.map
    (fun s => (s.1, s.2.1, headShakenPowerDb s.2.2))

/-- The strongest of the three axis FFT powers. -/
def maxPower (powersOf : List Rat → List Rat) (hm : HeadMovement) : Rat :=
  max (max (hm.x_axis.value powersOf).2 (hm.y_axis.value powersOf).2)
    (hm.z_axis.value powersOf).2

theorem selectBest_three (a b c : String × Rat × Rat) :
    ∃ s, selectBest [a, b, c] = some s
      ∧ s.2.2 = max (max a.2.2 b.2.2) c.2.2
      ∧ (s = a ∨ s = b ∨ s = c) := by
  by_cases h1 : a.2.2 < b.2.2
  · by_cases h2 : b.2.2 < c.2.2
    · refine ⟨c, by simp [selectBest, h1, h2], ?_, Or.inr (Or.inr rfl)⟩
      rw [max_eq_right (le_of_lt h1), max_eq_right (le_of_lt h2)]
    · refine ⟨b, by simp [selectBest, h1, h2], ?_, Or.inr (Or.inl rfl)⟩
      rw [max_eq_right (le_of_lt h1), max_eq_left (not_lt.mp h2)]
  · by_cases h2 : a.2.2 < c.2.2
    · refine ⟨c, by simp [selectBest, h1, h2], ?_, Or.inr (Or.inr rfl)⟩
      rw [max_eq_left (not_lt.mp h1), max_eq_right (le_of_lt h2)]
    · refine ⟨a, by simp [selectBest, h1, h2], ?_, Or.inl rfl⟩
      rw [max_eq_left (not_lt.mp h1), max_eq_left (not_lt.mp h2)]

theorem emitStep_spec (powersOf : List Rat → List Rat) (hm2 : HeadMovement) :
    (emitStep powersOf hm2 ≠ none ↔ 500 < maxPower powersOf hm2)
    ∧ ∀ s, emitStep powersOf hm2 = some s →
        s.2.2 = maxPower powersOf hm2
        ∧ (s = (hm2.x_axis.name, hm2.x_axis.value powersOf)
            ∨ s = (hm2.y_axis.name, hm2.y_axis.value powersOf)
            ∨ s = (hm2.z_axis.name, hm2.z_axis.value powersOf)) := by
  obtain ⟨s0, hsel, hpow, hmem⟩ := selectBest_three
    (hm2.x_axis.name, hm2.x_axis.value powersOf)
    (hm2.y_axis.name, hm2.y_axis.value powersOf)
    (hm2.z_axis.name, hm2.z_axis.value powersOf)
  have hmx : s0.2.2 = maxPower powersOf hm2 := hpow
  have hemit : emitStep powersOf hm2 = if 500 < s0.2.2 then some s0 else none := by
    unfold emitStep
    rw [hsel]
  by_cases hthr : 500 < s0.2.2
  · rw [hemit, if_pos hthr]
    constructor
    · constructor
      · intro _
        rwa [← hmx]
      · intro _
        simp
    · intro s hs
      obtain rfl : s0 = s := Option.some_injective _ hs
      exact ⟨hmx, hmem⟩
  · rw [hemit, if_neg hthr]
    constructor
    · constructor
      · intro hne
        exact absurd rfl hne
      · intro hgt
        rw [← hmx] at hgt
        exact absurd hgt hthr
    · intro s hs
      cases hs

/-- C10: after feeding a batch of gyro samples to the three axes, a
`HeadShaken` message is emitted iff the strongest of the three (updated)
axis FFT powers strictly exceeds 500; the emitted triple carries exactly
that maximal power and is the (name, value) pair of an arg-max axis; while
no axis window is full all powers are 0 and nothing is emitted; and the
sent message reports the power as `10 * log10(power^2)`. -/
theorem head_movement_emit_iff (powersOf : List Rat → List Rat)
    (hm : HeadMovement) (samples : List (Rat × Rat × Rat)) :
    ((hm.process_samples powersOf samples).1
        = ⟨hm.x_axis.addAll (samples.map (fun p => p.1)),
           hm.y_axis.addAll (samples.map (fun p => p.2.1)),
           hm.z_axis.addAll (samples.map (fun p => p.2.2))⟩)
    ∧ ((hm.process_samples powersOf samples).2 ≠ none
        ↔ 500 < maxPower powersOf (hm.process_samples powersOf samples).1)
    ∧ (∀ s, (hm.process_samples powersOf samples).2 = some s →
        s.2.2 = maxPower powersOf (hm.process_samples powersOf samples).1
        ∧ (s = ((hm.process_samples powersOf samples).1.x_axis.name,
                (hm.process_samples powersOf samples).1.x_axis.value powersOf)
          ∨ s = ((hm.process_samples powersOf samples).1.y_axis.name,
                (hm.process_samples powersOf samples).1.y_axis.value powersOf)
          ∨ s = ((hm.process_samples powersOf samples).1.z_axis.name,
                (hm.process_samples powersOf samples).1.z_axis.value powersOf)))
    ∧ ((hm.process_samples powersOf samples).1.x_axis.window.length ≠ 64
        → (hm.process_samples powersOf samples).1.y_axis.window.length ≠ 64
        → (hm.process_samples powersOf samples).1.z_axis.window.length ≠ 64
        → maxPower powersOf (hm.process_samples powersOf samples).1 = 0
          ∧ (hm.process_samples powersOf samples).2 = none)
    ∧ hm.sentMessage powersOf samples
        = ((hm.process_samples powersOf samples).2).map
            (fun s => (s.1, s.2.1, 10 * Real.logb 10 ((s.2.2 : Real) ^ 2))) := by
  have key := emitStep_spec powersOf (hm.process_samples powersOf samples).1
  refine ⟨rfl, key.1, key.2, ?_, rfl⟩
  intro hx hy hz
  have h0 : maxPower powersOf (hm.process_samples powersOf samples).1 = 0 := by
    unfold maxPower
    rw [value_not_full powersOf _ hx, value_not_full powersOf _ hy,
      value_not_full powersOf _ hz]
    simp
  refine ⟨h0, ?_⟩
  by_contra hne
  have hgt := key.1.mp hne
  rw [h0] at hgt
  norm_num at hgt

/-- Witness for C10: a fresh three-axis state fed an empty batch has no full
window, zero maximal power, and emits nothing. -/
theorem head_movement_emit_iff_witness :
    ((HeadMovement.init none none none).process_samples flatPowers []).1.x_axis.window.length ≠ 64
    ∧ ((HeadMovement.init none none none).process_samples flatPowers []).1.y_axis.window.length ≠ 64
    ∧ ((HeadMovement.init none none none).process_samples flatPowers []).1.z_axis.window.length ≠ 64
    ∧ (maxPower flatPowers ((HeadMovement.init none none none).process_samples flatPowers []).1 = 0
        ∧ ((HeadMovement.init none none none).process_samples flatPowers []).2 = none) :=
  ⟨by decide, by decide, by decide,
    (head_movement_emit_iff flatPowers (HeadMovement.init none none none) []).2.2.2.1
      (by decide) (by decide) (by decide)⟩

/-- The per-line read loop of the heart-sample readers
(`src/stim/heart/receiver.py` lines 43-46 and 50-54, and
`src/stim/heart.py` lines 250-255). Each incoming line is given as its
parse outcome: `some s` when `json.loads` succeeds, `none` for a malformed
line (where `json.loads` raises). `acc` models the samples processed so
far. The loop body has no exception handler, so a malformed line aborts the
loop: `Except.error` carries the samples processed before the bad line, and
the remaining lines are never examined. -/
def readSamples : List (Option HeartSample) → List HeartSample →
    Except (List HeartSample) (List HeartSample)
  | [], acc => Except.ok acc
  | some s :: rest, acc => readSamples rest (acc ++ [s])
  | none :: _, acc => Except.error acc

/-- The reader claim C7 describes, following the spec's words: a malformed
line is logged and skipped and the loop continues with the remaining
lines. -/
def readSamplesSkipping : List (Option HeartSample) → List HeartSample → List HeartSample
  | [], acc => acc
  | some s :: rest, acc => readSamplesSkipping rest (acc ++ [s])
  | none :: rest, acc => readSamplesSkipping rest acc

/-- Counterexample to C7: on a malformed line followed by a well-formed
one, the code's loop aborts without processing the later line, while the
claimed reader skips the malformed line and still processes the later
sample. -/
theorem read_malformed_cex :
    readSamples [none, some ⟨0, 60, []⟩] [] = Except.error []
    ∧ readSamplesSkipping [none, some ⟨0, 60, []⟩] [] = [⟨0, 60, []⟩] :=
  ⟨rfl, rfl⟩

/-- C7 as amended: the heart-sample read loop has no handler for malformed
JSON, so whenever some line is malformed the loop terminates with the
exception, having processed exactly the samples up to the first malformed
line and none after it; only when every line parses does the loop run to
completion, processing all samples in order. -/
theorem read_malformed_stops (lines : List (Option HeartSample))
    (acc : List HeartSample) :
    (none ∈ lines →
        readSamples lines acc
          = Except.error (acc ++ (lines.takeWhile (fun l => l.isSome)).filterMap id))
    ∧ ((∀ l ∈ lines, l.isSome) →
        readSamples lines acc = Except.ok (acc ++ lines.filterMap id)) := by
  induction lines generalizing acc with
  | nil =>
    constructor
    · intro h
      cases h
    · intro _
      simp [readSamples]
  | cons l rest ih =>
    constructor
    · intro hmem
      cases l with
      | none =>
        simp [readSamples, List.takeWhile]
      | some s =>
        have hrest : none ∈ rest := by
          rcases List.mem_cons.mp hmem with h | h
          · cases h
          · exact h
        show readSamples rest (acc ++ [s]) = _
        rw [(ih (acc ++ [s])).1 hrest]
        simp [List.takeWhile]
    · intro hall
      cases l with
      | none =>
        have := hall none (List.mem_cons_self _ _)
        simp at this
      | some s =>
        show readSamples rest (acc ++ [s]) = _
        rw [(ih (acc ++ [s])).2 (fun x hx => hall x (List.mem_cons_of_mem _ hx))]
        simp

/-- Witness for the amended C7 theorem: a well-formed line followed by a
malformed one processes only the first sample and then aborts. -/
theorem read_malformed_stops_witness :
    none ∈ [some (⟨0, 60, []⟩ : HeartSample), none]
    ∧ readSamples [some (⟨0, 60, []⟩ : HeartSample), none] []
        = Except.error ([] ++ (([some (⟨0, 60, []⟩ : HeartSample), none].takeWhile
            (fun l => l.isSome)).filterMap id)) :=
  ⟨by decide,
    (read_malformed_stops [some (⟨0, 60, []⟩ : HeartSample), none] []).1 (by decide)⟩

end Pyeep
